import Mathlib

/-!
Verification of the Oxen version-control engine against its design
specification.  The Rust sources are shallowly embedded: pure functions
become Lean functions, filesystem / RocksDB state becomes explicit record
state, fallible code returns `Except`, and code that can `panic!` returns an
`Outcome` with an explicit `panic` constructor.  External library functions
(the xxh3 hash of the `xxhash_rust` crate) are parameters of the embedding.
-/

set_option linter.unusedVariables false

namespace Oxen

/-- Error kinds of `OxenError` that the embedded code paths can produce. -/
inductive OxenErr where
  | basicStr (msg : String)
  | fileDoesNotExist (path : String)
  | fileHasNoParent (path : String)
  | commitDbCorrupted (id : String)
  | remoteBranchLocked
  | couldNotFindMergeConflict (path : String)
  deriving Repr, DecidableEq

/-- Decidable equality for `Except`, for evaluating embedded functions on
concrete inputs. -/
instance {ε α : Type} [DecidableEq ε] [DecidableEq α] :
    DecidableEq (Except ε α) := fun a b =>
  match a, b with
  | .ok x, .ok y =>
    if h : x = y then isTrue (by rw [h]) else isFalse (by intro hc; cases hc; exact h rfl)
  | .error x, .error y =>
    if h : x = y then isTrue (by rw [h]) else isFalse (by intro hc; cases hc; exact h rfl)
  | .ok _, .error _ => isFalse (by intro hc; cases hc)
  | .error _, .ok _ => isFalse (by intro hc; cases hc)

/-- Association-list lookup (models a RocksDB point get keyed by path/hash). -/
def lookupA {β : Type} (l : List (String × β)) (k : String) : Option β :=
  match l.find? (fun p => p.1 = k) with
  | some p => some p.2
  | none => none

/-- Association-list insert-or-replace (models a RocksDB put). -/
def insertA {β : Type} (l : List (String × β)) (k : String) (v : β) :
    List (String × β) :=
  match l with
  | [] => [(k, v)]
  | p :: rest => if p.1 = k then (k, v) :: rest else p :: insertA rest k v

/-- Association-list delete (models a RocksDB delete). -/
def eraseA {β : Type} (l : List (String × β)) (k : String) : List (String × β) :=
  l.filter (fun p => p.1 ≠ k)

/-! ## Hasher (`src/lib/src/util/hasher.rs`)

`xxh3_128` comes from the external `xxhash_rust` crate, so the embedding is
parameterised by the 128-bit hash function `x3 : List Nat → Nat` over byte
sequences.  The streaming hasher `Xxh3` of the same crate accumulates exactly
the bytes passed to `update`, and `digest128` is `xxh3_128` of the
accumulated bytes. -/

/-- Rust's `format!("{val:x}")`: lowercase hexadecimal rendering. -/
def natToHex (n : Nat) : String := String.mk (Nat.toDigits 16 n)

/-- `hash_buffer`: `format!("{:x}", xxh3_128(buffer))`. -/
def hash_buffer (x3 : List Nat → Nat) (buffer : List Nat) : String :=
  natToHex (x3 buffer)

/-- Streaming `Xxh3` hasher state: the bytes consumed so far by `update`. -/
structure Xxh3State where
  consumed : List Nat
  deriving Repr, DecidableEq

/-- `Xxh3::new()`. -/
def Xxh3State.new : Xxh3State := ⟨[]⟩

/-- `hasher.update(&buffer[..count])`. -/
def Xxh3State.update (s : Xxh3State) (chunk : List Nat) : Xxh3State :=
  ⟨s.consumed ++ chunk⟩

/-- `hasher.digest128()` rendered as in `format!("{result:x}")`. -/
def Xxh3State.digest128 (x3 : List Nat → Nat) (s : Xxh3State) : String :=
  natToHex (x3 s.consumed)

/-- The successive reads of the 4096-byte buffer loop in
`hash_large_file_contents`: the file contents split into chunks of 4096. -/
def chunks4096 (contents : List Nat) : List (List Nat) :=
  if contents = [] then []
  else contents.take 4096 :: chunks4096 (contents.drop 4096)
termination_by contents.length
decreasing_by
  simp only [List.length_drop]
  have : contents.length ≠ 0 := by
    simpa [List.length_eq_zero] using ‹contents ≠ []›
  omega

/-- `hash_small_file_contents`: read the whole file, hash it in one shot. -/
def hash_small_file_contents (x3 : List Nat → Nat) (contents : List Nat) : String :=
  hash_buffer x3 contents

/-- `hash_large_file_contents`: stream the file through the `Xxh3` hasher in
4096-byte reads, then digest. -/
def hash_large_file_contents (x3 : List Nat → Nat) (contents : List Nat) : String :=
  Xxh3State.digest128 x3
    ((chunks4096 contents).foldl (fun s c => s.update c) Xxh3State.new)

/-- `hash_file_contents`: one-shot hash below 1 GB of metadata length,
streaming hash at or above it. -/
def hash_file_contents (x3 : List Nat → Nat) (contents : List Nat) : String :=
  if contents.length < 1000000000 then hash_small_file_contents x3 contents
  else hash_large_file_contents x3 contents

/-! ## Branch locking (`src/lib/src/api/local/branches.rs`) -/

/-- `branch_name_no_slashes`: replace every `/` with `-`. -/
def branch_name_no_slashes (name : String) : String :=
  String.mk (name.toList.map (fun c => if c = '/' then '-' else c))

/-- The filesystem/ref state that `lock`, `is_locked` and `unlock` touch:
branch refs (name → commit id) and the contents of the files under
`.oxen/locks/`. -/
structure LockState where
  refs : List (String × String)
  locks : List (String × String)
  deriving Repr, DecidableEq

/-- `api::local::branches::lock`: refuse with `RemoteBranchLocked` if the
lock file exists, otherwise write the branch's current head commit id (or a
placeholder for a branch being created) into the lock file. -/
def branches_lock (st : LockState) (name : String) : Except OxenErr LockState :=
  let clean_name := branch_name_no_slashes name
  if (lookupA st.locks clean_name).isSome then
    .error .remoteBranchLocked
  else
    let maybe_latest_commit :=
      match lookupA st.refs name with
      | some commit_id => commit_id
      | none => "branch being created"
    .ok { st with locks := insertA st.locks clean_name maybe_latest_commit }

/-- `api::local::branches::is_locked`: the branch is locked iff the lock file
exists. -/
def branches_is_locked (st : LockState) (name : String) : Bool :=
  (lookupA st.locks (branch_name_no_slashes name)).isSome

/-- `api::local::branches::unlock`: delete the lock file (no-op when it does
not exist). -/
def branches_unlock (st : LockState) (name : String) : Except OxenErr LockState :=
  let clean_name := branch_name_no_slashes name
  if (lookupA st.locks clean_name).isSome then
    .ok { st with locks := eraseA st.locks clean_name }
  else
    .ok st

/-! ## Staging engine (`src/lib/src/index/stager.rs`)

Paths in the embedding are repo-relative strings with `/` separators; the
working tree, the HEAD commit's entry set and the staged-entries KVs are
explicit record fields.  `Stager::new` gives `hasMerger = false`,
`Stager::new_with_merge` gives `hasMerger = true`. -/

/-- Splitting a character list at a separator (structural recursion, so
concrete evaluation reduces in the kernel); same semantics as Rust's
`split` / `String::splitOn` for a one-character separator. -/
def splitChars (sep : Char) : List Char → List Char → List String
  | [], acc => [String.mk acc.reverse]
  | c :: cs, acc =>
    if c = sep then String.mk acc.reverse :: splitChars sep cs []
    else splitChars sep cs (c :: acc)

/-- A repo-relative path split into its `/`-separated components. -/
def splitSlash (p : String) : List String :=
  splitChars '/' p.toList []

/-- Joining path components with `/`. -/
def joinSlash : List String → String
  | [] => ""
  | [x] => x
  | x :: xs => x ++ "/" ++ joinSlash xs

/-- `String::starts_with` over character lists. -/
def strStartsWith (s pre : String) : Bool :=
  pre.toList.isPrefixOf s.toList

/-- Dropping the first `n` characters of a string. -/
def strDrop (s : String) (n : Nat) : String :=
  String.mk (s.toList.drop n)

/-- Taking the first `n` characters of a string. -/
def strTake (s : String) (n : Nat) : String :=
  String.mk (s.toList.take n)

/-- A file in the working tree: its content hash (what
`util::hasher::hash_file_contents` returns for it) and its modification
time. -/
structure DiskFile where
  hash : String
  mtimeSec : Nat
  mtimeNsec : Nat
  deriving Repr, DecidableEq

/-- `CommitEntry`: an entry of a commit. -/
structure CommitEntryRec where
  path : String
  hash : String
  mtimeSec : Nat
  mtimeNsec : Nat
  deriving Repr, DecidableEq

/-- `CommitEntry::has_different_modification_time`. -/
def CommitEntryRec.has_different_modification_time (ce : CommitEntryRec)
    (sec nsec : Nat) : Bool :=
  ce.mtimeSec ≠ sec || ce.mtimeNsec ≠ nsec

/-- `StagedEntryStatus`. -/
inductive StagedEntryStatus where
  | added | modified | removed
  deriving Repr, DecidableEq

/-- `StagedEntryType`. -/
inductive StagedEntryType where
  | regular | tabular
  deriving Repr, DecidableEq

/-- `StagedEntry`. -/
structure StagedEntryRec where
  hash : String
  status : StagedEntryStatus
  entryType : StagedEntryType
  deriving Repr, DecidableEq

/-- `StagedDirStats`. -/
structure StagedDirStats where
  path : String
  num_files_staged : Nat
  total_files : Nat
  deriving Repr, DecidableEq

/-- The repository state seen by the `Stager` together with the
`CommitDirReader` for HEAD: working-tree files, HEAD entries, the per-commit
dirs DB, the staged-entries KVs (flattened, keyed by repo-relative path), the
staged-dirs DB, and the merge-conflicts KV. -/
structure RepoState where
  disk : List (String × DiskFile)
  headEntries : List CommitEntryRec
  committedDirs : List String
  staged : List (String × StagedEntryRec)
  stagedDirs : List String
  conflicts : List String
  hasMerger : Bool
  deriving Repr, DecidableEq

/-- `StagedData` as filled in by `Stager::compute_staged_data` (merge
conflicts are represented by their paths). -/
structure StagedData where
  added_dirs : List StagedDirStats
  added_files : List (String × StagedEntryRec)
  untracked_dirs : List (String × Nat)
  untracked_files : List String
  modified_files : List String
  removed_files : List String
  merge_conflicts : List String
  deriving Repr, DecidableEq

/-- `StagedData::empty`. -/
def StagedData.empty : StagedData := ⟨[], [], [], [], [], [], []⟩

/-- Substring test on character lists, used for
`path.to_str().unwrap().contains(constants::OXEN_HIDDEN_DIR)`. -/
def containsSeq (needle : List Char) : List Char → Bool
  | [] => needle.isEmpty
  | c :: cs => needle.isPrefixOf (c :: cs) || containsSeq needle cs

/-- `path.contains(".oxen")` (`constants::OXEN_HIDDEN_DIR = ".oxen"`). -/
def containsOxenDir (path : String) : Bool :=
  containsSeq ".oxen".toList path.toList

/-- Rust `Path::parent` restricted to nonempty repo-relative paths: the path
with its last component removed (the empty string for a top-level name). -/
def parentDir (path : String) : String :=
  joinSlash ((splitSlash path).dropLast)

/-- Component-wise `Path::starts_with` for repo-relative paths. -/
def pathStartsWithDir (dir path : String) : Bool :=
  dir = "" || path = dir || strStartsWith path (dir ++ "/")

/-- A file with this exact repo-relative path exists in the working tree. -/
def RepoState.fileOnDisk (st : RepoState) (path : String) : Bool :=
  (lookupA st.disk path).isSome

/-- The repo-relative path is a directory of the working tree (the working
tree contains some file strictly below it; the repo root `""` always is). -/
def RepoState.dirOnDisk (st : RepoState) (path : String) : Bool :=
  path = "" || st.disk.any (fun q => strStartsWith q.1 (path ++ "/"))

/-- `Path::exists` on a repo-relative path. -/
def RepoState.pathExists (st : RepoState) (path : String) : Bool :=
  st.fileOnDisk path || st.dirOnDisk path

/-- `CommitDirReader::get_entry` for HEAD: look the path up in the HEAD
commit's entry set. -/
def RepoState.headEntry (st : RepoState) (path : String) : Option CommitEntryRec :=
  st.headEntries.find? (fun ce => ce.path = path)

/-- `CommitDirReader::list_files` for HEAD. -/
def RepoState.headFiles (st : RepoState) : List String :=
  st.headEntries.map (fun ce => ce.path)

/-- `CommitDirReader::list_files_from_dir`: the committed entries whose path
starts with the directory. -/
def RepoState.headFilesFromDir (st : RepoState) (dir : String) : List CommitEntryRec :=
  st.headEntries.filter (fun ce => pathStartsWithDir dir ce.path)

/-- `Stager::has_entry`: the staged-entries KV of the path's parent holds the
path. -/
def RepoState.hasStagedEntry (st : RepoState) (path : String) : Bool :=
  (lookupA st.staged path).isSome

/-- A path component is hidden when it starts with `.` (what jwalk's
`skip_hidden(true)` skips during the status walk). -/
def hiddenRelPath (rel : String) : Bool :=
  (splitSlash rel).any (fun c => strStartsWith c ".")

/-- The path relative to a walked directory. -/
def relToDir (dir path : String) : String :=
  if dir = "" then path else strDrop path (dir.length + 1)

/-- The working-tree files visited by the `WalkDirGeneric` walk of
`check_status_for_all_files_in_dir` rooted at `dir` (hidden entries
skipped). -/
def RepoState.walkFiles (st : RepoState) (dir : String) : List (String × DiskFile) :=
  st.disk.filter (fun q =>
    (if dir = "" then true else strStartsWith q.1 (dir ++ "/"))
      && !hiddenRelPath (relToDir dir q.1))

/-- The per-file classification of the
`check_status_for_all_files_in_dir` walk (the `process_read_dir` closure
followed by the outer match on the resulting `FileStatus`): a staged file is
reported `Added` (with its staged entry), an unstaged file that is in HEAD
with a different mtime and a different content hash is reported `Modified`.
The `Removed` and `Conflict` arms of the final match are no-ops in the
source and `Untracked` is never assigned by the walk closure. -/
def checkStatusStep (st : RepoState) (acc : StagedData) (q : String × DiskFile) :
    StagedData :=
  match lookupA st.staged q.1 with
  | some e => { acc with added_files := acc.added_files ++ [(q.1, e)] }
  | none =>
    match st.headEntry q.1 with
    | some ce =>
      if ce.has_different_modification_time q.2.mtimeSec q.2.mtimeNsec then
        if q.2.hash ≠ ce.hash then
          { acc with modified_files := acc.modified_files ++ [q.1] }
        else acc
      else acc
    | none => acc

/-- `Stager::check_status_for_all_files_in_dir`: classify every working-tree
file under `dir` visited by the `WalkDirGeneric` walk. -/
def check_status_for_all_files_in_dir (st : RepoState) (dir : String)
    (status : StagedData) : StagedData :=
  (st.walkFiles dir).foldl (checkStatusStep st) status

/-- `Stager::list_added_files_in_dir`: the staged paths recorded in the
staged-entries KV of the directory's parent. -/
def list_added_files_in_dir (st : RepoState) (dir : String) : List String :=
  (st.staged.map (fun q => q.1)).filter (fun p => parentDir p = parentDir dir)

/-- Number of working-tree files under a directory
(`util::fs::rcount_files_in_dir`). -/
def RepoState.rcountFilesInDir (st : RepoState) (dir : String) : Nat :=
  (st.disk.filter (fun q => strStartsWith q.1 (dir ++ "/"))).length

/-- `Stager::compute_staged_dir_stats`. -/
def compute_staged_dir_stats (st : RepoState) (path : String) : StagedDirStats :=
  if !(st.dirOnDisk path) then ⟨path, 0, 0⟩
  else
    let num_files_staged := (list_added_files_in_dir st path).length
    if num_files_staged = 0 then ⟨path, 0, 0⟩
    else ⟨path, num_files_staged, st.rcountFilesInDir path⟩

/-- Top-level working-tree file names (the file entries of
`read_dir(repository.path)`). -/
def RepoState.topLevelFiles (st : RepoState) : List String :=
  (st.disk.map (fun q => q.1)).filter (fun p => (splitSlash p).length = 1)

/-- Top-level working-tree directory names (the directory entries of
`read_dir(repository.path)`). -/
def RepoState.topLevelDirs (st : RepoState) : List String :=
  ((st.disk.map (fun q => q.1)).filterMap (fun p =>
    match splitSlash p with
    | c :: _ :: _ => some c
    | _ => none)).dedup

/-- `Stager::compute_staged_data` (the body of `Stager::status`): stats and
walk for every staged dir, walk for every committed dir, then the top-level
`read_dir` loop (untracked dirs and staged top-level files), then the merge
conflicts.  No step of the function assigns `removed_files`. -/
def compute_staged_data (st : RepoState) : StagedData :=
  let s0 := StagedData.empty
  let s1 := st.stagedDirs.foldl
    (fun acc d =>
      let acc := { acc with
        added_dirs := acc.added_dirs ++ [compute_staged_dir_stats st d] }
      check_status_for_all_files_in_dir st d acc) s0
  let s2 := st.committedDirs.foldl
    (fun acc d => check_status_for_all_files_in_dir st d acc) s1
  let s3 := st.topLevelDirs.foldl
    (fun acc d =>
      if d ∈ st.stagedDirs then acc
      else { acc with untracked_dirs := acc.untracked_dirs ++ [(d, 0)] }) s2
  let s4 := st.topLevelFiles.foldl
    (fun acc p =>
      match lookupA st.staged p with
      | some e => { acc with added_files := acc.added_files ++ [(p, e)] }
      | none => acc) s3
  { s4 with merge_conflicts := st.conflicts }

/-- `Stager::status`. -/
def stager_status (st : RepoState) : StagedData :=
  compute_staged_data st

/-- `Stager::list_removed_files`: HEAD paths that are neither in the working
tree nor staged. -/
def list_removed_files (st : RepoState) : List String :=
  st.headFiles.filter (fun p => !(st.fileOnDisk p) && !(st.hasStagedEntry p))

/-- `Stager::add_staged_entry_to_db`: record the parent directory in the
staged-dirs KV (the `parent != repository.path` guard always passes, the
relative parent never equals the absolute repo path) and put the staged
entry into the parent's staged-entries KV keyed by the path. -/
def add_staged_entry_to_db (st : RepoState) (path : String)
    (entry : StagedEntryRec) : Except OxenErr RepoState :=
  if path = "" then .error (.fileHasNoParent path)
  else
    let parent := parentDir path
    let dirs := if parent ∈ st.stagedDirs then st.stagedDirs
                else st.stagedDirs ++ [parent]
    .ok { st with staged := insertA st.staged path entry, stagedDirs := dirs }

/-- `Stager::add_staged_entry` (the body of `add_file` / `add_tabular_file`):
error when the file does not exist; hash it; if the stager has a merger and
the path is a merge conflict, stage it (status `Added`) and clear the
conflict; otherwise a hash equal to HEAD's is a no-op, a different hash
stages `Modified`, and a path absent from HEAD stages `Added`. -/
def add_staged_entry (st : RepoState) (path : String) (ty : StagedEntryType) :
    Except OxenErr (RepoState × String) :=
  match lookupA st.disk path with
  | none => .error (.fileDoesNotExist path)
  | some f =>
    let hash := f.hash
    let entry : StagedEntryRec := ⟨hash, .added, ty⟩
    if st.hasMerger && path ∈ st.conflicts then
      (add_staged_entry_to_db st path entry).map
        (fun st' => ({ st' with conflicts := st'.conflicts.erase path }, path))
    else
      match st.headEntry path with
      | some ce =>
        if ce.hash = hash then .ok (st, path)
        else
          (add_staged_entry_to_db st path ⟨hash, .modified, ty⟩).map
            (fun st' => (st', path))
      | none =>
        (add_staged_entry_to_db st path entry).map (fun st' => (st', path))

/-- `Stager::add_file`. -/
def stager_add_file (st : RepoState) (path : String) :
    Except OxenErr (RepoState × String) :=
  add_staged_entry st path .regular

/-- `StagedDirEntriesDB::add_removed_file` via `Stager::add_removed_file`.
Modelled from the spec: the `staged_dir_entries_db.rs` source is not in the
repository snapshot; per §4.5, a removed path is staged with status
`Removed` and the committed entry's hash. -/
def stager_add_removed_file (st : RepoState) (path : String)
    (ce : CommitEntryRec) : Except OxenErr RepoState :=
  if path = "" then .error (.fileHasNoParent path)
  else .ok { st with staged := insertA st.staged path ⟨ce.hash, .removed, .regular⟩ }

/-- `Stager::add_dir`: error on a non-existent directory; otherwise walk the
directory's status and `add_file` each untracked or modified path, logging
(and otherwise ignoring) per-file errors. -/
def stager_add_dir (st : RepoState) (dir : String) : Except OxenErr RepoState :=
  if !(st.pathExists dir) || !(st.dirOnDisk dir) then
    .error (.basicStr ("Cannot stage non-existant dir: " ++ dir))
  else
    let status := check_status_for_all_files_in_dir st dir StagedData.empty
    let paths := status.untracked_files ++ status.modified_files
    .ok (paths.foldl
      (fun s p =>
        match stager_add_file s p with
        | .ok (s', _) => s'
        | .error _ => s) st)

/-- One non-`"."` step of `Stager::add` (the recursive calls made for the
entries of `"."` re-enter through this function, re-checking the `.oxen`
guard). -/
def stager_add_one (st : RepoState) (path : String) : Except OxenErr RepoState :=
  if containsOxenDir path then .ok st
  else if !(st.pathExists path) then
    match st.headEntry path with
    | some ce => stager_add_removed_file st path ce
    | none =>
      let files_in_dir := st.headFilesFromDir path
      if !files_in_dir.isEmpty then
        files_in_dir.foldlM (fun s ce => stager_add_removed_file s ce.path ce) st
      else if st.dirOnDisk path then stager_add_dir st path
      else (add_staged_entry st path .regular).map (fun q => q.1)
  else if st.dirOnDisk path then stager_add_dir st path
  else (add_staged_entry st path .regular).map (fun q => q.1)

/-- Top-level entries of the working tree (files and directories), walked by
the `path == "."` branch of `Stager::add`. -/
def RepoState.topLevelEntries (st : RepoState) : List String :=
  st.topLevelDirs ++ st.topLevelFiles

/-- `Stager::add`: a silent no-op for any path containing `.oxen`; for `"."`
recurse into every top-level entry; otherwise dispatch on
removed/dir/file. -/
def stager_add (st : RepoState) (path : String) : Except OxenErr RepoState :=
  if containsOxenDir path then .ok st
  else if path = "." then
    st.topLevelEntries.foldlM (fun s e => stager_add_one s e) st
  else stager_add_one st path

/-- `Result`-with-panics outcome of running a Rust function that may
`panic!`. -/
inductive Outcome (α : Type) where
  | ok (value : α)
  | err (e : OxenErr)
  | panic (msg : String)
  deriving Repr, DecidableEq

/-- `Stager::list_untracked_directories`: collect the `read_dir` entries
(propagating an IO error), then unconditionally `panic!("TODO: redo")` —
the body that would compute the untracked directories is commented out in
the source. -/
def list_untracked_directories (readDir : Except OxenErr (List String)) :
    Outcome (List (String × Nat)) :=
  match readDir with
  | .error e => .err e
  | .ok dir_entries =>
    let _ := dir_entries.length
    .panic "TODO: redo"

/-! ## Merger (`src/lib/src/index/merger.rs`) -/

/-- The state `Merger::merge` reads and writes: branch refs, the HEAD commit
id, the entry sets of each commit, the working tree (path → content hash of
the file materialised there), and the merge-conflicts KV (paths). -/
structure MergeState where
  refs : List (String × String)
  headCommitId : String
  commits : List (String × List CommitEntryRec)
  workingTree : List (String × String)
  conflictsDb : List String
  deriving Repr, DecidableEq

/-- `Merger::merge`: resolve HEAD and the named branch to commits; for every
entry of the merge commit, an entry also in HEAD with a different hash makes
the whole merge fail with `"TODO, merge strategy"`, an entry not in HEAD is
copied from the version store into the working tree.  Nothing is ever
written to the merge-conflicts KV. -/
def merger_merge (st : MergeState) (branch_name : String) :
    Except OxenErr MergeState :=
  match lookupA st.refs branch_name with
  | none => .error (.commitDbCorrupted branch_name)
  | some merge_commit_id =>
    match lookupA st.commits st.headCommitId with
    | none => .error (.commitDbCorrupted st.headCommitId)
    | some head_entries =>
      match lookupA st.commits merge_commit_id with
      | none => .error (.commitDbCorrupted merge_commit_id)
      | some merge_entries =>
        (merge_entries.foldlM
          (fun (ws : List (String × String)) (me : CommitEntryRec) =>
            match head_entries.find? (fun (he : CommitEntryRec) => he.path = me.path) with
            | some he =>
              if he.hash ≠ me.hash then
                Except.error (OxenErr.basicStr "TODO, merge strategy")
              else Except.ok ws
            | none => Except.ok (insertA ws me.path me.hash))
          st.workingTree).map
        (fun ws => { st with workingTree := ws })

/-! ## Conflict checkout (`src/lib/src/command/checkout.rs`)

The `MergeConflict` record and `command::restore` are not part of the
repository snapshot; both are modelled from the spec. -/

/-- One side of a merge conflict.  Modelled from the spec: each entry of the
conflict record "carries its content hash and source commit" (§3). -/
structure ConflictEntryV where
  path : String
  hash : String
  commit_id : String
  deriving Repr, DecidableEq

/-- A merge conflict record.  Modelled from the spec:
`{ path, base_entry, head_entry, merge_entry }`, the three entries being the
LCA (base), HEAD (ours) and merge-target (theirs) versions of the three-way
merge of §4.7. -/
structure MergeConflictRec where
  path : String
  base_entry : ConflictEntryV
  head_entry : ConflictEntryV
  merge_entry : ConflictEntryV
  deriving Repr, DecidableEq

/-- State for conflict checkout: the recorded conflicts
(`MergeConflictReader::list_conflicts`), the object store keyed by
(commit id, path), and the working tree (path → content). -/
structure CheckoutState where
  conflicts : List MergeConflictRec
  versions : List (String × String)
  workingTree : List (String × String)
  deriving Repr, DecidableEq

/-- Key of the object-store copy of `path` as committed in `commit_id`. -/
def versionKey (commit_id path : String) : String :=
  commit_id ++ ":" ++ path

/-- `command::restore` with `RestoreOpts::from_path_ref(path, commit_id)`.
Modelled from the spec: copy the file from the object store (the version of
`path` committed at `commit_id`) back over the working-tree path,
overwriting (§4.5). -/
def command_restore (st : CheckoutState) (path commit_id : String) :
    Except OxenErr CheckoutState :=
  match lookupA st.versions (versionKey commit_id path) with
  | some content =>
    .ok { st with workingTree := insertA st.workingTree path content }
  | none => .error (.fileDoesNotExist path)

/-- `command::checkout_theirs`: find the conflict whose `merge_entry` has
this path and restore the `merge_entry`'s commit's version, else fail with
`CouldNotFindMergeConflict`. -/
def checkout_theirs (st : CheckoutState) (path : String) :
    Except OxenErr CheckoutState :=
  match st.conflicts.find? (fun c => c.merge_entry.path = path) with
  | some conflict => command_restore st path conflict.merge_entry.commit_id
  | none => .error (.couldNotFindMergeConflict path)

/-- `command::checkout_ours`: find the conflict whose `merge_entry` has this
path and restore the `base_entry`'s commit's version, else fail with
`CouldNotFindMergeConflict`. -/
def checkout_ours (st : CheckoutState) (path : String) :
    Except OxenErr CheckoutState :=
  match st.conflicts.find? (fun c => c.merge_entry.path = path) with
  | some conflict => command_restore st path conflict.base_entry.commit_id
  | none => .error (.couldNotFindMergeConflict path)

/-! ## Tabular DF engine (`src/lib/src/core/index/remote_df_stager.rs`)

The per-file DuckDB table is embedded as a header plus rows of string-rendered
values.  `uuid()` values are supplied by a generator `ids : Nat → String`.
`constants::TABLE_NAME` / `constants::OXEN_ID_COL` and `util::fs::is_tabular`
are not in the repository snapshot; the column name `_oxen_id` and the
supported format list are modelled from the spec (§4.8). -/

/-- `constants::OXEN_ID_COL`. -/
def OXEN_ID_COL : String := "_oxen_id"

/-- A materialised tabular file / DuckDB table. -/
structure DataTable where
  cols : List String
  rows : List (List String)
  deriving Repr, DecidableEq

/-- Every row has one value per column. -/
def DataTable.wf (t : DataTable) : Prop :=
  ∀ r ∈ t.rows, r.length = t.cols.length

/-- `CREATE TABLE data AS SELECT *, CAST(uuid() AS VARCHAR) AS _oxen_id FROM
<file>`: the parsed file with a fresh uuid column appended. -/
def index_table (t : DataTable) (ids : Nat → String) : DataTable :=
  { cols := t.cols ++ [OXEN_ID_COL]
    rows := t.rows.enum.map (fun q => q.2 ++ [ids q.1]) }

/-- `index_csv`. -/
def index_csv (t : DataTable) (ids : Nat → String) : DataTable := index_table t ids

/-- `index_tsv`. -/
def index_tsv (t : DataTable) (ids : Nat → String) : DataTable := index_table t ids

/-- `index_json` (also `.jsonl` / `.ndjson`). -/
def index_json (t : DataTable) (ids : Nat → String) : DataTable := index_table t ids

/-- `index_parquet`. -/
def index_parquet (t : DataTable) (ids : Nat → String) : DataTable := index_table t ids

/-- Projection of one row away from the columns named `c`. -/
def projRow (cols : List String) (c : String) (r : List String) : List String :=
  ((cols.zip r).filter (fun p => p.1 ≠ c)).map (fun p => p.2)

/-- `SELECT * EXCLUDE c FROM t`. -/
def exclude_col (c : String) (t : DataTable) : DataTable :=
  { cols := t.cols.filter (fun x => x ≠ c)
    rows := t.rows.map (projRow t.cols c) }

/-- `COPY (SELECT * EXCLUDE _oxen_id FROM data) to <file>`: the common body
of `export_csv`, `export_tsv`, `export_rest` and `export_parquet`. -/
def export_table (t : DataTable) : DataTable :=
  exclude_col OXEN_ID_COL t

/-- `export_csv` (`HEADER, DELIMITER ','`). -/
def export_csv (t : DataTable) : DataTable := export_table t

/-- `export_tsv` (`HEADER, DELIMITER '\t'`). -/
def export_tsv (t : DataTable) : DataTable := export_table t

/-- `export_rest` (json / jsonl / ndjson). -/
def export_rest (t : DataTable) : DataTable := export_table t

/-- `export_parquet` (`FORMAT PARQUET`). -/
def export_parquet (t : DataTable) : DataTable := export_table t

/-- Rust `Path::extension` on a repo-relative path: the part of the file
name after its last `.`, none when the file name has no dot besides a
leading one. -/
def extensionOf (path : String) : Option String :=
  let filename := (splitSlash path).getLastD path
  let parts := splitChars '.'
    (if strStartsWith filename "." then (strDrop filename 1) else filename).toList []
  if parts.length ≤ 1 then none else parts.getLast?

/-- `index_dataset` without its repository plumbing: check
`util::fs::is_tabular` (modelled from the spec's format list), then dispatch
on the extension to the per-format `index_*`. -/
def index_dataset (path : String) (contents : DataTable) (ids : Nat → String) :
    Except OxenErr DataTable :=
  if !(extensionOf path ∈ [some "csv", some "tsv", some "json", some "jsonl",
      some "ndjson", some "parquet"]) then
    .error (.basicStr "File format not supported, must be tabular.must be tabular.")
  else
    match extensionOf path with
    | some "csv" => .ok (index_csv contents ids)
    | some "tsv" => .ok (index_tsv contents ids)
    | some "json" => .ok (index_json contents ids)
    | some "jsonl" => .ok (index_json contents ids)
    | some "ndjson" => .ok (index_json contents ids)
    | some "parquet" => .ok (index_parquet contents ids)
    | _ => .error (.basicStr "File format not supported, must be tabular.")

/-- `extract_dataset_to_versions_dir` without its repository plumbing:
dispatch on the extension to the per-format `export_*`. -/
def extract_dataset_to_versions_dir (path : String) (table : DataTable) :
    Except OxenErr DataTable :=
  match extensionOf path with
  | some "csv" => .ok (export_csv table)
  | some "tsv" => .ok (export_tsv table)
  | some "json" => .ok (export_rest table)
  | some "jsonl" => .ok (export_rest table)
  | some "ndjson" => .ok (export_rest table)
  | some "parquet" => .ok (export_parquet table)
  | _ => .error (.basicStr "File format not supported, must be tabular.")

/-! ## Merkle-tree path lookup
(`src/lib/src/core/index/new_commit_dir_entry_reader.rs`)

`TreeObject`, `TreeObjectChild` and `binary_search_on_path` live in
`core/db/tree_db.rs`, which is not in the repository snapshot;
`binary_search_on_path` is modelled from the spec: children are kept sorted
by path and resolved by binary search (§3, §4.3).  `hash_path` is xxh3 of
the path string, so the embedding takes the path-hash function as a
parameter. -/

/-- `TreeObjectChild`: a child entry of a `Dir` or `VNode` node. -/
inductive TreeObjectChild where
  | file (path hash : String)
  | dir (path hash : String)
  | vnode (path hash : String)
  | schemaNode (path hash : String)
  deriving Repr, DecidableEq

/-- The child's path (a 2-hex prefix for a `Dir`'s vnode children, a full
repo-relative path for a `VNode`'s children). -/
def TreeObjectChild.path : TreeObjectChild → String
  | .file p _ => p
  | .dir p _ => p
  | .vnode p _ => p
  | .schemaNode p _ => p

/-- The child's content-address. -/
def TreeObjectChild.hashOf : TreeObjectChild → String
  | .file _ h => h
  | .dir _ h => h
  | .vnode _ h => h
  | .schemaNode _ h => h

/-- One step of binary search for key `k` on the index interval `[lo, hi)`
of `xs`, whose keys are sorted. -/
def bsearchGo {α : Type} (key : α → String) (k : String) (xs : List α)
    (lo hi : Nat) : Option α :=
  if hlt : lo < hi then
    match xs[(lo + hi) / 2]? with
    | none => none
    | some x =>
      if key x < k then bsearchGo key k xs ((lo + hi) / 2 + 1) hi
      else if k < key x then bsearchGo key k xs lo ((lo + hi) / 2)
      else some x
  else none
termination_by hi - lo
decreasing_by
  · have h1 : lo ≤ (lo + hi) / 2 := Nat.le_div_iff_mul_le (by omega) |>.mpr (by omega)
    omega
  · have h2 : (lo + hi) / 2 < hi := Nat.div_lt_iff_lt_mul (by omega) |>.mpr (by omega)
    omega

/-- `TreeObject::binary_search_on_path`.  Modelled from the spec: binary
search among the sorted children for the given path. -/
def binary_search_on_path {α : Type} (key : α → String) (k : String)
    (xs : List α) : Option α :=
  bsearchGo key k xs 0 xs.length

/-- A `File` tree object (`TreeObject::File`). -/
structure FileNodeRec where
  hash : String
  num_bytes : Nat
  mtimeSec : Nat
  mtimeNsec : Nat
  deriving Repr, DecidableEq

/-- The `CommitEntry` produced by `TreeObject::to_commit_entry`. -/
structure TreeCommitEntry where
  commit_id : String
  path : String
  hash : String
  num_bytes : Nat
  mtimeSec : Nat
  mtimeNsec : Nat
  deriving Repr, DecidableEq

/-- `TreeObject::to_commit_entry` for a `File` object. -/
def FileNodeRec.to_commit_entry (f : FileNodeRec) (path commit_id : String) :
    TreeCommitEntry :=
  ⟨commit_id, path, f.hash, f.num_bytes, f.mtimeSec, f.mtimeNsec⟩

/-- `ObjectDBReader`: the objects DB, vnode hash → its (sorted) children and
file hash → `File` node. -/
structure ObjectDB where
  vnodes : List (String × List TreeObjectChild)
  files : List (String × FileNodeRec)
  deriving Repr, DecidableEq

/-- `NewCommitDirEntryReader` after construction: the directory it reads,
the children of the directory's `Dir` object (its vnode entries), and the
commit id. -/
structure DirEntryReader where
  dir : String
  dirChildren : List TreeObjectChild
  commit_id : String
  deriving Repr, DecidableEq

/-- `self.dir.join(path)` for repo-relative paths. -/
def joinPath (dir path : String) : String :=
  if dir = "" then path else dir ++ "/" ++ path

/-- `NewCommitDirEntryReader::get_entry`: take the 2-hex prefix of
`hash_path(full_path)`, binary-search the `Dir`'s children for the prefix,
`unwrap` the vnode object from the objects DB, binary-search its children
for the full path, and build the commit entry from the `File` object
(`unwrap`ped from the objects DB); `None` when either search misses or the
found child is not a `File`. -/
def new_reader_get_entry (rdr : DirEntryReader) (odb : ObjectDB)
    (pathHash : String → String) (path : String) :
    Outcome (Option TreeCommitEntry) :=
  let full_path := joinPath rdr.dir path
  let pfx := strTake (pathHash full_path) 2
  match binary_search_on_path TreeObjectChild.path pfx rdr.dirChildren with
  | none => .ok none
  | some vnode_child =>
    match lookupA odb.vnodes vnode_child.hashOf with
    | none => .panic "called `Option::unwrap()` on a `None` value"
    | some vnode_children =>
      match binary_search_on_path TreeObjectChild.path full_path vnode_children with
      | none => .ok none
      | some (.file p h) =>
        match lookupA odb.files h with
        | none => .panic "called `Option::unwrap()` on a `None` value"
        | some file_object => .ok (some (file_object.to_commit_entry p rdr.commit_id))
      | some _ => .ok none

/-- `NewCommitDirEntryReader::has_file`: same two searches, `true` exactly on
a `File` child. -/
def new_reader_has_file (rdr : DirEntryReader) (odb : ObjectDB)
    (pathHash : String → String) (path : String) : Outcome Bool :=
  let full_path := joinPath rdr.dir path
  let pfx := strTake (pathHash full_path) 2
  match binary_search_on_path TreeObjectChild.path pfx rdr.dirChildren with
  | none => .ok false
  | some vnode_child =>
    match lookupA odb.vnodes vnode_child.hashOf with
    | none => .panic "called `Option::unwrap()` on a `None` value"
    | some vnode_children =>
      match binary_search_on_path TreeObjectChild.path full_path vnode_children with
      | none => .ok false
      | some (.file _ _) => .ok true
      | some _ => .ok false

/-- Reference lookup the binary searches must agree with: linear `find?` on
the prefix among the `Dir`'s children, then linear `find?` on the full path
among the vnode's children. -/
def spec_get_entry (rdr : DirEntryReader) (odb : ObjectDB)
    (pathHash : String → String) (path : String) : Option TreeCommitEntry :=
  let full_path := joinPath rdr.dir path
  let pfx := strTake (pathHash full_path) 2
  match rdr.dirChildren.find? (fun c => c.path == pfx) with
  | none => none
  | some vnode_child =>
    match lookupA odb.vnodes vnode_child.hashOf with
    | none => none
    | some vnode_children =>
      match vnode_children.find? (fun c => c.path == full_path) with
      | none => none
      | some (.file p h) =>
        match lookupA odb.files h with
        | none => none
        | some file_object => some (file_object.to_commit_entry p rdr.commit_id)
      | some _ => none

/-- Children sorted strictly by path (`Dir` children by 2-hex prefix, `VNode`
children by full path): the §3 invariant "sorted and unique". -/
def sortedByPath (children : List TreeObjectChild) : Prop :=
  List.Pairwise (fun a b => a.path < b.path) children

/-! ## Concrete repository states used to evaluate the embedded code -/

/-- A repository whose HEAD commit tracks `labels.txt` while the working tree
holds no files and nothing is staged. -/
def repoHeadOnly : RepoState :=
  { disk := [], headEntries := [⟨"labels.txt", "h1", 1, 2⟩], committedDirs := [""]
    staged := [], stagedDirs := [], conflicts := [], hasMerger := false }

/-- A merge state where `labels.txt` was changed on both sides: HEAD commit
`c1` has hash `hash-ours`, branch `add-labels` points at commit `c2` with
hash `hash-theirs`. -/
def mergeBothChanged : MergeState :=
  { refs := [("add-labels", "c2")], headCommitId := "c1"
    commits := [("c1", [⟨"labels.txt", "hash-ours", 0, 0⟩]),
                ("c2", [⟨"labels.txt", "hash-theirs", 0, 0⟩])]
    workingTree := [("labels.txt", "hash-ours")], conflictsDb := [] }

/-- A merge state where branch `add-world` only adds `world.txt`, which HEAD
does not track. -/
def mergeNonConflicting : MergeState :=
  { refs := [("add-world", "c2")], headCommitId := "c1"
    commits := [("c1", [⟨"hello.txt", "hash-hello", 0, 0⟩]),
                ("c2", [⟨"hello.txt", "hash-hello", 0, 0⟩,
                        ⟨"world.txt", "hash-world", 0, 0⟩])]
    workingTree := [("hello.txt", "hash-hello")], conflictsDb := [] }

/-- A stager opened with `new_with_merge` on a repository where `labels.txt`
has a recorded merge conflict and the working-tree copy already equals the
HEAD version (`h1`). -/
def repoConflictUnchanged : RepoState :=
  { disk := [("labels.txt", ⟨"h1", 5, 6⟩)]
    headEntries := [⟨"labels.txt", "h1", 5, 6⟩], committedDirs := [""]
    staged := [], stagedDirs := [], conflicts := ["labels.txt"], hasMerger := true }

/-- A stager opened with `Stager::new` (no merger) on a repository where the
working-tree `data/train.txt` differs from its HEAD version. -/
def repoPlain : RepoState :=
  { disk := [("data/train.txt", ⟨"h2", 9, 9⟩)]
    headEntries := [⟨"data/train.txt", "h1", 5, 6⟩], committedDirs := [""]
    staged := [], stagedDirs := [], conflicts := [], hasMerger := false }

/-- A checkout state after a conflicting merge of `labels.txt`: the LCA
(base) version was committed at `lca1`, ours (HEAD) at `head1`, theirs
(merge target) at `merge1`, each with distinct stored contents. -/
def checkoutConflict : CheckoutState :=
  { conflicts := [⟨"labels.txt",
      ⟨"labels.txt", "hash-base", "lca1"⟩,
      ⟨"labels.txt", "hash-head", "head1"⟩,
      ⟨"labels.txt", "hash-merge", "merge1"⟩⟩]
    versions := [(versionKey "lca1" "labels.txt", "content-base"),
                 (versionKey "head1" "labels.txt", "content-head"),
                 (versionKey "merge1" "labels.txt", "content-theirs")]
    workingTree := [("labels.txt", "content-head")] }

/-- An unlocked branch state: `main` points at commit `c42`, no lock files
exist. -/
def lockFree : LockState :=
  { refs := [("feature/world", "c42")], locks := [] }

/-- A one-file commit tree: the `Dir` object has a single vnode child for
prefix `ab`, whose vnode holds the `File` child `train/cat.jpg`. -/
def treeReaderOneFile : DirEntryReader :=
  { dir := "train", dirChildren := [.vnode "ab" "vh1"], commit_id := "commit1" }

/-- The objects DB backing `treeReaderOneFile`. -/
def objectsOneFile : ObjectDB :=
  { vnodes := [("vh1", [.file "train/cat.jpg" "fh1"])]
    files := [("fh1", ⟨"fh1", 10, 3, 4⟩)] }

/-- A path-hash function for concrete evaluation: every path hashes to a
value whose 2-hex prefix is `ab`. -/
def constPathHash : String → String := fun _ => "abcdef"

/-- A two-column csv table. -/
def csvTable : DataTable :=
  { cols := ["file", "label"], rows := [["t/cat.jpg", "0"], ["t/dog.jpg", "1"]] }

/-- A uuid generator for concrete evaluation. -/
def uuidGen : Nat → String := fun n => "uuid-" ++ toString n

theorem lookupA_insertA_self {β : Type} (l : List (String × β)) (k : String) (v : β) :
    lookupA (insertA l k v) k = some v := by
  induction l with
  | nil => simp [insertA, lookupA, List.find?]
  | cons p rest ih =>
    by_cases h : p.1 = k
    · simp [insertA, h, lookupA, List.find?]
    · simpa [insertA, h, lookupA, List.find?] using ih

theorem lookupA_insertA_ne {β : Type} (l : List (String × β)) (k q : String) (v : β)
    (h : q ≠ k) : lookupA (insertA l k v) q = lookupA l q := by
  have hk : ¬ (k = q) := fun hkq => h hkq.symm
  induction l with
  | nil => simp [insertA, lookupA, List.find?, hk]
  | cons p rest ih =>
    by_cases hp : p.1 = k
    · subst hp
      simp [insertA, lookupA, List.find?, hk]
    · by_cases hq : p.1 = q
      · simp [insertA, hp, lookupA, List.find?, hq, h]
      · simpa [insertA, hp, lookupA, List.find?, hq] using ih

theorem lookupA_eraseA_self {β : Type} (l : List (String × β)) (k : String) :
    lookupA (eraseA l k) k = none := by
  induction l with
  | nil => simp [eraseA, lookupA, List.find?]
  | cons p rest ih =>
    by_cases h : p.1 = k
    · simpa [eraseA, h, lookupA] using ih
    · simpa [eraseA, h, lookupA, List.find?] using ih


theorem chunks4096_foldl_append (contents : List Nat) (init : List Nat) :
    (chunks4096 contents).foldl (fun acc c => acc ++ c) init = init ++ contents := by
  rw [chunks4096]
  by_cases h : contents = []
  · simp [h]
  · simp only [h, if_false, List.foldl_cons]
    rw [chunks4096_foldl_append (contents.drop 4096)]
    simp [List.append_assoc]
termination_by contents.length
decreasing_by
  simp only [List.length_drop]
  have : contents.length ≠ 0 := by
    simpa [List.length_eq_zero] using h
  omega

theorem hash_large_consumed (contents : List Nat) :
    ((chunks4096 contents).foldl (fun s c => s.update c) Xxh3State.new).consumed
      = contents := by
  have key : ∀ (cs : List (List Nat)) (s : Xxh3State),
      (cs.foldl (fun s c => s.update c) s).consumed
        = cs.foldl (fun acc c => acc ++ c) s.consumed := by
    intro cs
    induction cs with
    | nil => intro s; rfl
    | cons c rest ih => intro s; simpa [Xxh3State.update] using ih (s.update c)
  rw [key]
  simpa using chunks4096_foldl_append contents []


theorem bsearchGo_sound {α : Type} (key : α → String) (k : String) (xs : List α) :
    ∀ (n lo hi : Nat), hi - lo ≤ n → ∀ x, bsearchGo key k xs lo hi = some x →
      x ∈ xs ∧ key x = k := by
  intro n
  induction n with
  | zero =>
    intro lo hi hle x h
    rw [bsearchGo, dif_neg (by omega)] at h
    cases h
  | succ n ih =>
    intro lo hi hle x h
    rw [bsearchGo] at h
    by_cases hlt : lo < hi
    · rw [dif_pos hlt] at h
      have hmidlo : lo ≤ (lo + hi) / 2 :=
        (Nat.le_div_iff_mul_le (by omega)).mpr (by omega)
      have hmidhi : (lo + hi) / 2 < hi :=
        (Nat.div_lt_iff_lt_mul (by omega)).mpr (by omega)
      cases hm : xs[(lo + hi) / 2]? with
      | none => rw [hm] at h; cases h
      | some y =>
        rw [hm] at h
        dsimp only at h
        by_cases h1 : key y < k
        · rw [if_pos h1] at h
          exact ih ((lo + hi) / 2 + 1) hi (by omega) x h
        · rw [if_neg h1] at h
          by_cases h2 : k < key y
          · rw [if_pos h2] at h
            exact ih lo ((lo + hi) / 2) (by omega) x h
          · rw [if_neg h2] at h
            cases h
            refine ⟨List.getElem?_mem hm, ?_⟩
            exact le_antisymm (not_lt.mp h2) (not_lt.mp h1)
    · rw [dif_neg hlt] at h
      cases h

theorem bsearchGo_complete {α : Type} (key : α → String) (k : String) (xs : List α)
    (hsort : ∀ (i j : Fin xs.length), i < j → key (xs.get i) < key (xs.get j)) :
    ∀ (n lo hi : Nat), hi - lo ≤ n → hi ≤ xs.length →
      ∀ (i : Fin xs.length), lo ≤ i.val → i.val < hi → key (xs.get i) = k →
        (bsearchGo key k xs lo hi).isSome := by
  intro n
  induction n with
  | zero => intro lo hi hle _ i hlo hhi _; omega
  | succ n ih =>
    intro lo hi hle hlen i hlo hhi hk
    have hlt : lo < hi := by omega
    have hmidlo : lo ≤ (lo + hi) / 2 :=
      (Nat.le_div_iff_mul_le (by omega)).mpr (by omega)
    have hmidhi : (lo + hi) / 2 < hi :=
      (Nat.div_lt_iff_lt_mul (by omega)).mpr (by omega)
    have hmidlen : (lo + hi) / 2 < xs.length := by omega
    rw [bsearchGo, dif_pos hlt]
    have hm : xs[(lo + hi) / 2]? = some (xs.get ⟨(lo + hi) / 2, hmidlen⟩) := by
      simp [List.getElem?_eq_getElem hmidlen]
    rw [hm]
    dsimp only
    set mid := (lo + hi) / 2 with hmid
    by_cases h1 : key (xs.get ⟨mid, hmidlen⟩) < k
    · rw [if_pos h1]
      have himid : mid < i.val := by
        rcases Nat.lt_trichotomy i.val mid with hc | hc | hc
        · have hlt2 := hsort i ⟨mid, hmidlen⟩ hc
          rw [hk] at hlt2
          exact absurd h1 (not_lt.mpr (le_of_lt hlt2))
        · have hieq : i = (⟨mid, hmidlen⟩ : Fin xs.length) := Fin.ext hc
          rw [hieq] at hk
          rw [hk] at h1
          exact absurd h1 (lt_irrefl k)
        · exact hc
      exact ih (mid + 1) hi (by omega) hlen i (by omega) hhi hk
    · rw [if_neg h1]
      by_cases h2 : k < key (xs.get ⟨mid, hmidlen⟩)
      · rw [if_pos h2]
        have himid : i.val < mid := by
          rcases Nat.lt_trichotomy i.val mid with hc | hc | hc
          · exact hc
          · have hieq : i = (⟨mid, hmidlen⟩ : Fin xs.length) := Fin.ext hc
            rw [hieq] at hk
            rw [hk] at h2
            exact absurd h2 (lt_irrefl k)
          · have hlt2 := hsort ⟨mid, hmidlen⟩ i hc
            rw [hk] at hlt2
            exact absurd h2 (not_lt.mpr (le_of_lt hlt2))
        exact ih lo mid (by omega) (by omega) i hlo himid hk
      · rw [if_neg h2]
        simp

theorem sorted_key_mem_unique {α : Type} (key : α → String) (k : String)
    (xs : List α)
    (hsort : ∀ (i j : Fin xs.length), i < j → key (xs.get i) < key (xs.get j))
    (x y : α) (hx : x ∈ xs) (hy : y ∈ xs) (hkx : key x = k) (hky : key y = k) :
    x = y := by
  obtain ⟨i, hi⟩ := List.mem_iff_get.mp hx
  obtain ⟨j, hj⟩ := List.mem_iff_get.mp hy
  rcases Nat.lt_trichotomy i.val j.val with hc | hc | hc
  · have := hsort i j hc
    rw [hi, hj, hkx, hky] at this
    exact absurd this (lt_irrefl k)
  · rw [← hi, ← hj]; congr 1; exact Fin.ext hc
  · have := hsort j i hc
    rw [hi, hj, hkx, hky] at this
    exact absurd this (lt_irrefl k)

/-- On children sorted strictly by key, `binary_search_on_path` agrees with
linear search. -/
theorem binary_search_eq_find {α : Type} (key : α → String) (k : String)
    (xs : List α) (hp : List.Pairwise (fun a b => key a < key b) xs) :
    binary_search_on_path key k xs = xs.find? (fun x => key x == k) := by
  have hsort : ∀ (i j : Fin xs.length), i < j → key (xs.get i) < key (xs.get j) :=
    List.pairwise_iff_get.mp hp
  cases hf : xs.find? (fun x => key x == k) with
  | none =>
    cases hb : binary_search_on_path key k xs with
    | none => rfl
    | some x =>
      obtain ⟨hx, hk⟩ :=
        bsearchGo_sound key k xs xs.length 0 xs.length (by omega) x hb
      have := List.find?_eq_none.mp hf x hx
      simp [hk] at this
  | some y =>
    have hy : y ∈ xs := List.mem_of_find?_eq_some hf
    have hyk : key y = k := by
      have := List.find?_some hf
      simpa using this
    obtain ⟨i, hi⟩ := List.mem_iff_get.mp hy
    have hsome : (bsearchGo key k xs 0 xs.length).isSome :=
      bsearchGo_complete key k xs hsort xs.length 0 xs.length (by omega)
        (le_refl _) i (by omega) i.isLt (by rw [hi, hyk])
    obtain ⟨x, hb⟩ := Option.isSome_iff_exists.mp hsome
    obtain ⟨hx, hk⟩ :=
      bsearchGo_sound key k xs xs.length 0 xs.length (by omega) x hb
    have hxy : x = y := sorted_key_mem_unique key k xs hsort x y hx hy hk hyk
    rw [binary_search_on_path, hb, hxy]


/-! ## Supporting lemmas for the status engine -/

theorem foldl_preserves {σ β : Type} (f : σ → β → σ) (proj : σ → List String)
    (h : ∀ acc b, proj (f acc b) = proj acc) (l : List β) (acc : σ) :
    proj (List.foldl f acc l) = proj acc := by
  induction l generalizing acc with
  | nil => rfl
  | cons b rest ih => rw [List.foldl_cons, ih, h]

theorem checkStatusStep_removed_files (st : RepoState) (acc : StagedData)
    (q : String × DiskFile) :
    (checkStatusStep st acc q).removed_files = acc.removed_files := by
  unfold checkStatusStep
  cases hq : lookupA st.staged q.1 with
  | some e => rfl
  | none =>
    cases hh : st.headEntry q.1 with
    | some ce =>
      by_cases hm : ce.has_different_modification_time q.2.mtimeSec q.2.mtimeNsec
      · by_cases hsh : q.2.hash ≠ ce.hash
        · simp [hm, hsh]
        · simp [hm, hsh]
      · simp [hm]
    | none => rfl

theorem check_status_removed_files (st : RepoState) (dir : String)
    (acc : StagedData) :
    (check_status_for_all_files_in_dir st dir acc).removed_files
      = acc.removed_files := by
  unfold check_status_for_all_files_in_dir
  exact foldl_preserves _ StagedData.removed_files
    (checkStatusStep_removed_files st) _ acc

theorem compute_staged_data_removed_files (st : RepoState) :
    (compute_staged_data st).removed_files = [] := by
  unfold compute_staged_data
  rw [foldl_preserves _ StagedData.removed_files (by
    intro acc p
    cases hq : lookupA st.staged p with
    | some e => simp [hq]
    | none => simp [hq])]
  rw [foldl_preserves _ StagedData.removed_files (by
    intro acc d
    by_cases hd : d ∈ st.stagedDirs
    · simp [hd]
    · simp [hd])]
  rw [foldl_preserves _ StagedData.removed_files (by
    intro acc d
    exact check_status_removed_files st d acc)]
  rw [foldl_preserves _ StagedData.removed_files (by
    intro acc d
    rw [check_status_removed_files])]
  rfl

/-! ## Claim theorems -/

/-- C1: the spec says `status` lists as `Removed` every path present in HEAD
but absent from the working tree and not staged.  The code does not:
`compute_staged_data` (the body of `Stager::status`) never assigns
`removed_files` — the walk's `FileStatus::Removed` arm is a commented-out
no-op and `Stager::list_removed_files` (which does compute exactly those
paths) is never called from `status`.  On a repository whose HEAD tracks
`labels.txt` with an empty working tree, `list_removed_files` returns
`["labels.txt"]` while `status` reports no removed files, contradicting the
repository's own test `test_command_add_removed_file`. -/
theorem status_omits_removed_files :
    (∀ st : RepoState, (stager_status st).removed_files = []) ∧
    list_removed_files repoHeadOnly = ["labels.txt"] ∧
    (stager_status repoHeadOnly).removed_files = [] := by
  refine ⟨fun st => compute_staged_data_removed_files st, ?_, ?_⟩
  · rfl
  · exact compute_staged_data_removed_files repoHeadOnly

/-- C2: the spec says a path changed on both sides with different hashes is
recorded in the merge-conflicts KV, ours stays in the working tree, and the
merge does not fail.  `Merger::merge` instead returns
`Err("TODO, merge strategy")` on the first such path and never writes the
merge-conflicts KV; on the both-changed state it fails outright while the
non-conflicting merge copies the new entry into the working tree. -/
theorem merge_both_changed_errors :
    merger_merge mergeBothChanged "add-labels"
      = .error (.basicStr "TODO, merge strategy") ∧
    mergeBothChanged.conflictsDb = [] ∧
    merger_merge mergeNonConflicting "add-world"
      = .ok { mergeNonConflicting with
          workingTree := [("hello.txt", "hash-hello"), ("world.txt", "hash-world")] } := by
  refine ⟨rfl, rfl, rfl⟩

/-- C3 counterexample: the claim says `add` stages nothing whenever the
file's content hash equals the HEAD entry's hash.  On a stager opened with
`new_with_merge` where `labels.txt` has a recorded merge conflict and its
working-tree hash `h1` equals the HEAD hash `h1`, `add_staged_entry` still
writes a staged entry (status `Added`). -/
theorem add_unchanged_conflict_stages_cex :
    lookupA repoConflictUnchanged.disk "labels.txt" = some ⟨"h1", 5, 6⟩ ∧
    repoConflictUnchanged.headEntry "labels.txt" = some ⟨"labels.txt", "h1", 5, 6⟩ ∧
    repoConflictUnchanged.staged = [] ∧
    add_staged_entry repoConflictUnchanged "labels.txt" StagedEntryType.regular
      = .ok (⟨[("labels.txt", ⟨"h1", 5, 6⟩)], [⟨"labels.txt", "h1", 5, 6⟩], [""],
              [("labels.txt", ⟨"h1", .added, .regular⟩)], [""], [], true⟩,
             "labels.txt") := by
  refine ⟨rfl, rfl, rfl, by decide⟩

/-- C3 (amended): for a file with no recorded merge conflict, `add` is a
no-op when the content hash equals the HEAD entry's hash (so adding the same
unchanged file twice also leaves the staging area unchanged), and otherwise
writes exactly one staged entry — `Modified` when the path is in HEAD with a
different hash, `Added` when it is not; when a merge conflict is recorded
for the path, `add` stages the file with status `Added` and removes the
conflict. -/
theorem add_staged_entry_behaviour (st : RepoState) (p : String) (f : DiskFile)
    (ty : StagedEntryType) (hdisk : lookupA st.disk p = some f) (hp : p ≠ "") :
    (¬(st.hasMerger = true ∧ p ∈ st.conflicts) →
      (∀ ce, st.headEntry p = some ce → ce.hash = f.hash →
        add_staged_entry st p ty = .ok (st, p) ∧
        (add_staged_entry st p ty).bind
          (fun q => add_staged_entry q.1 p ty) = .ok (st, p)) ∧
      (∀ ce, st.headEntry p = some ce → ce.hash ≠ f.hash →
        add_staged_entry st p ty =
          .ok ({ st with
                  staged := insertA st.staged p ⟨f.hash, .modified, ty⟩
                  stagedDirs := if parentDir p ∈ st.stagedDirs then st.stagedDirs
                                else st.stagedDirs ++ [parentDir p] }, p)) ∧
      (st.headEntry p = none →
        add_staged_entry st p ty =
          .ok ({ st with
                  staged := insertA st.staged p ⟨f.hash, .added, ty⟩
                  stagedDirs := if parentDir p ∈ st.stagedDirs then st.stagedDirs
                                else st.stagedDirs ++ [parentDir p] }, p))) ∧
    ((st.hasMerger = true ∧ p ∈ st.conflicts) →
      add_staged_entry st p ty =
        .ok ({ st with
                staged := insertA st.staged p ⟨f.hash, .added, ty⟩
                stagedDirs := if parentDir p ∈ st.stagedDirs then st.stagedDirs
                              else st.stagedDirs ++ [parentDir p]
                conflicts := st.conflicts.erase p }, p)) ∧
    (∀ e, lookupA (insertA st.staged p e) p = some e) ∧
    (∀ e q, q ≠ p → lookupA (insertA st.staged p e) q = lookupA st.staged q) := by
  have hmerge : (st.hasMerger && decide (p ∈ st.conflicts)) = true ↔
      (st.hasMerger = true ∧ p ∈ st.conflicts) := by
    simp
  constructor
  · intro hnc
    have hnc' : (st.hasMerger && decide (p ∈ st.conflicts)) = false := by
      rcases Bool.eq_false_or_eq_true (st.hasMerger && decide (p ∈ st.conflicts)) with h | h
      · exact absurd (hmerge.mp h) hnc
      · exact h
    refine ⟨?_, ?_, ?_⟩
    · intro ce hce hh
      have h1 : add_staged_entry st p ty = .ok (st, p) := by
        unfold add_staged_entry
        rw [hdisk]
        dsimp only
        rw [hnc']
        rw [if_neg (by simp), hce]
        dsimp only
        rw [if_pos hh]
      exact ⟨h1, by rw [h1]; exact h1⟩
    · intro ce hce hh
      unfold add_staged_entry
      rw [hdisk]
      dsimp only
      rw [hnc']
      rw [if_neg (by simp), hce]
      dsimp only
      rw [if_neg hh]
      unfold add_staged_entry_to_db
      rw [if_neg hp]
      rfl
    · intro hce
      unfold add_staged_entry
      rw [hdisk]
      dsimp only
      rw [hnc']
      rw [if_neg (by simp), hce]
      dsimp only
      unfold add_staged_entry_to_db
      rw [if_neg hp]
      rfl
  · refine ⟨?_, ?_, ?_⟩
    · intro hc
      have hc' : (st.hasMerger && decide (p ∈ st.conflicts)) = true := hmerge.mpr hc
      unfold add_staged_entry
      rw [hdisk]
      dsimp only
      rw [hc']
      rw [if_pos rfl]
      unfold add_staged_entry_to_db
      rw [if_neg hp]
      rfl
    · intro e
      exact lookupA_insertA_self st.staged p e
    · intro e q hq
      exact lookupA_insertA_ne st.staged p q e hq

/-- C3 witness: on `repoPlain` (no merger), `data/train.txt` is in HEAD with
hash `h1` and on disk with hash `h2`, so `add` stages exactly one `Modified`
entry. -/
theorem add_staged_entry_behaviour_witness :
    lookupA repoPlain.disk "data/train.txt" = some ⟨"h2", 9, 9⟩ ∧
    add_staged_entry repoPlain "data/train.txt" StagedEntryType.regular =
      .ok ({ repoPlain with
              staged := insertA repoPlain.staged "data/train.txt" ⟨"h2", .modified, .regular⟩
              stagedDirs := if parentDir "data/train.txt" ∈ repoPlain.stagedDirs
                            then repoPlain.stagedDirs
                            else repoPlain.stagedDirs ++ [parentDir "data/train.txt"] },
            "data/train.txt") := by
  refine ⟨rfl, ?_⟩
  exact ((add_staged_entry_behaviour repoPlain "data/train.txt" ⟨"h2", 9, 9⟩
    StagedEntryType.regular rfl (by decide)).1 (by decide)).2.1
    ⟨"data/train.txt", "h1", 5, 6⟩ rfl (by decide)

/-- C10: any path whose string contains `.oxen` makes `Stager::add` return
`Ok(())` immediately, leaving every staged-entries and staged-dirs DB (and
the rest of the repository state) untouched. -/
theorem add_oxen_path_noop (st : RepoState) (path : String)
    (h : containsOxenDir path = true) :
    stager_add st path = .ok st := by
  unfold stager_add
  rw [if_pos h]

/-- C10 witness: adding `data/.oxen/config.toml` on a populated repository
state is a silent no-op. -/
theorem add_oxen_path_noop_witness :
    containsOxenDir "data/.oxen/config.toml" = true ∧
    stager_add repoPlain "data/.oxen/config.toml" = .ok repoPlain :=
  ⟨by decide, add_oxen_path_noop repoPlain "data/.oxen/config.toml" (by decide)⟩

/-- C9: the spec says status/add never panic: every reachable execution
returns a result or an `OxenError`.  `Stager::list_untracked_directories`
unconditionally executes `panic!("TODO: redo")` after reading the directory
entries, so any repository on which the listing is reached panics. -/
theorem list_untracked_directories_always_panics :
    ∀ dir_entries : List String,
      list_untracked_directories (.ok dir_entries) = .panic "TODO: redo" :=
  fun _ => rfl

/-- C8: the spec says `checkout --ours P` restores HEAD's version.  With the
conflict record modelled from the spec (`base_entry` = LCA, `head_entry` =
HEAD, `merge_entry` = merge target), `checkout_ours` restores the
`base_entry`'s commit's version — the LCA content, not HEAD's — while
`checkout_theirs` correctly restores the merge target's version and both
fail with `CouldNotFindMergeConflict` on a path with no recorded
conflict. -/
theorem checkout_ours_restores_base_version :
    checkout_ours checkoutConflict "labels.txt"
      = .ok { checkoutConflict with
          workingTree := [("labels.txt", "content-base")] } ∧
    ("content-base" : String) ≠ "content-head" ∧
    checkout_theirs checkoutConflict "labels.txt"
      = .ok { checkoutConflict with
          workingTree := [("labels.txt", "content-theirs")] } ∧
    checkout_ours checkoutConflict "other.txt"
      = .error (.couldNotFindMergeConflict "other.txt") ∧
    checkout_theirs checkoutConflict "other.txt"
      = .error (.couldNotFindMergeConflict "other.txt") := by
  refine ⟨rfl, by decide, rfl, rfl, rfl⟩

/-- C6: the streaming and one-shot paths of `hash_file_contents` agree for
every content and every xxh3 function (the 4096-byte chunking feeds exactly
the file's bytes to the streaming hasher), both equal `hash_buffer` of the
whole contents, and contents of at least 1 GiB take the streaming path. -/
theorem hash_streaming_eq_one_shot (x3 : List Nat → Nat) (contents : List Nat) :
    hash_large_file_contents x3 contents = hash_small_file_contents x3 contents ∧
    hash_small_file_contents x3 contents = hash_buffer x3 contents ∧
    (1073741824 ≤ contents.length →
      hash_file_contents x3 contents = hash_large_file_contents x3 contents) := by
  refine ⟨?_, rfl, ?_⟩
  · unfold hash_large_file_contents hash_small_file_contents hash_buffer
      Xxh3State.digest128
    rw [hash_large_consumed]
  · intro h
    unfold hash_file_contents
    rw [if_neg (by omega)]

/-- C6 witness: a 1 GiB input takes the streaming path. -/
theorem hash_streaming_eq_one_shot_witness :
    1073741824 ≤ (List.replicate 1073741824 (0 : Nat)).length ∧
    hash_file_contents (fun l => l.length) (List.replicate 1073741824 (0 : Nat))
      = hash_large_file_contents (fun l => l.length)
          (List.replicate 1073741824 (0 : Nat)) :=
  ⟨by rw [List.length_replicate], (hash_streaming_eq_one_shot (fun l => l.length)
      (List.replicate 1073741824 (0 : Nat))).2.2
      (by rw [List.length_replicate])⟩

/-- C7: `lock` fails with `RemoteBranchLocked` exactly when the lock file
for the slash-escaped branch name exists; on success for an existing branch
it creates that file containing the branch's current head commit id; and
after `unlock` the lock file is gone. -/
theorem branch_lock_iff_lock_file (st : LockState) (name commit_id : String)
    (hbranch : lookupA st.refs name = some commit_id) :
    (branches_lock st name = .error .remoteBranchLocked ↔
      branches_is_locked st name = true) ∧
    (branches_is_locked st name = false →
      branches_lock st name = .ok { st with
        locks := insertA st.locks (branch_name_no_slashes name) commit_id } ∧
      lookupA (insertA st.locks (branch_name_no_slashes name) commit_id)
        (branch_name_no_slashes name) = some commit_id) ∧
    (∀ st', branches_unlock st name = .ok st' →
      lookupA st'.locks (branch_name_no_slashes name) = none) := by
  refine ⟨?_, ?_, ?_⟩
  · constructor
    · intro h
      unfold branches_lock at h
      dsimp only at h
      by_cases hl : (lookupA st.locks (branch_name_no_slashes name)).isSome
      · exact hl
      · rw [if_neg (by simpa using hl)] at h
        cases h
    · intro h
      unfold branches_is_locked at h
      unfold branches_lock
      dsimp only
      rw [if_pos h]
  · intro h
    have h' : ¬ (lookupA st.locks (branch_name_no_slashes name)).isSome := by
      unfold branches_is_locked at h
      simp [h]
    constructor
    · unfold branches_lock
      dsimp only
      rw [if_neg (by simpa using h'), hbranch]
    · exact lookupA_insertA_self st.locks (branch_name_no_slashes name) commit_id
  · intro st' h
    unfold branches_unlock at h
    dsimp only at h
    by_cases hl : (lookupA st.locks (branch_name_no_slashes name)).isSome
    · rw [if_pos hl] at h
      cases h
      exact lookupA_eraseA_self st.locks (branch_name_no_slashes name)
    · rw [if_neg (by simpa using hl)] at h
      cases h
      simpa using hl

/-- C7 witness: locking `feature/world` on an unlocked state writes the lock
file `feature-world` containing `c42`; a second lock refuses; unlock removes
it. -/
theorem branch_lock_iff_lock_file_witness :
    lookupA lockFree.refs "feature/world" = some "c42" ∧
    branches_is_locked lockFree "feature/world" = false ∧
    branches_lock lockFree "feature/world" = .ok { lockFree with
      locks := insertA lockFree.locks (branch_name_no_slashes "feature/world") "c42" } := by
  refine ⟨rfl, rfl, ?_⟩
  exact ((branch_lock_iff_lock_file lockFree "feature/world" "c42" rfl).2.1 rfl).1


/-! ## Supporting lemmas for the tabular round trip -/

theorem projRow_append (cols : List String) (c : String) (r : List String)
    (u : String) (hlen : r.length = cols.length) (hc : c ∉ cols) :
    projRow (cols ++ [c]) c (r ++ [u]) = r := by
  unfold projRow
  rw [List.zip_append hlen.symm]
  rw [List.filter_append]
  have h1 : (cols.zip r).filter (fun p => p.1 ≠ c) = cols.zip r := by
    rw [List.filter_eq_self]
    intro a ha
    have hmem : a.1 ∈ cols := (List.of_mem_zip ha).1
    simp only [ne_eq, decide_not, Bool.not_eq_true', decide_eq_false_iff_not]
    intro hh
    exact hc (hh ▸ hmem)
  have h2 : ([c].zip [u]).filter (fun p => p.1 ≠ c) = [] := by
    simp [List.zip]
  rw [h1, h2, List.append_nil]
  exact List.map_snd_zip cols r (le_of_eq hlen)

theorem export_index_table (t : DataTable) (ids : Nat → String)
    (hwf : t.wf) (hid : OXEN_ID_COL ∉ t.cols) :
    export_table (index_table t ids) = t := by
  have hcols : (t.cols ++ [OXEN_ID_COL]).filter (fun x => x ≠ OXEN_ID_COL)
      = t.cols := by
    rw [List.filter_append]
    have h2 : ([OXEN_ID_COL].filter (fun x => x ≠ OXEN_ID_COL)) = [] := by simp
    have h1 : t.cols.filter (fun x => x ≠ OXEN_ID_COL) = t.cols := by
      rw [List.filter_eq_self]
      intro a ha
      simp only [ne_eq, decide_not, Bool.not_eq_true', decide_eq_false_iff_not]
      intro hh
      exact hid (hh ▸ ha)
    rw [h1, h2, List.append_nil]
  have hrows : (t.rows.enum.map (fun q => q.2 ++ [ids q.1])).map
      (projRow (t.cols ++ [OXEN_ID_COL]) OXEN_ID_COL) = t.rows := by
    rw [List.map_map]
    have hcongr : ∀ q ∈ t.rows.enum,
        (projRow (t.cols ++ [OXEN_ID_COL]) OXEN_ID_COL ∘
          (fun q => q.2 ++ [ids q.1])) q = q.2 := by
      intro q hq
      exact projRow_append t.cols OXEN_ID_COL q.2 (ids q.1)
        (hwf q.2 (List.snd_mem_of_mem_enum hq)) hid
    rw [List.map_congr_left hcongr, List.enum_map_snd]
  obtain ⟨cols, rows⟩ := t
  unfold export_table exclude_col index_table
  simp only [DataTable.mk.injEq]
  exact ⟨hcols, hrows⟩

theorem lookupA_mem {β : Type} (l : List (String × β)) (k : String) (v : β)
    (h : lookupA l k = some v) : (k, v) ∈ l := by
  unfold lookupA at h
  cases hf : l.find? (fun p => p.1 = k) with
  | none => rw [hf] at h; cases h
  | some p =>
    rw [hf] at h
    cases h
    have hm := List.mem_of_find?_eq_some hf
    have hp := List.find?_some hf
    simp only [decide_eq_true_eq] at hp
    rw [← hp]
    simpa using hm

/-- C4: indexing a supported tabular file appends the `_oxen_id` uuid column
and exporting selects `* EXCLUDE _oxen_id`, so index followed by export
returns exactly the original rows; no export ever contains the `_oxen_id`
column. -/
theorem tabular_index_export_round_trip (path : String) (t : DataTable)
    (ids : Nat → String) (e : String) (hext : extensionOf path = some e)
    (hsup : e ∈ ["csv", "tsv", "json", "jsonl", "ndjson", "parquet"])
    (hwf : t.wf) (hid : OXEN_ID_COL ∉ t.cols) :
    index_dataset path t ids = .ok (index_table t ids) ∧
    extract_dataset_to_versions_dir path (index_table t ids)
      = .ok (export_table (index_table t ids)) ∧
    export_table (index_table t ids) = t ∧
    (∀ tbl : DataTable, OXEN_ID_COL ∉ (export_table tbl).cols) := by
  refine ⟨?_, ?_, export_index_table t ids hwf hid, ?_⟩
  · simp only [List.mem_cons, List.not_mem_nil, or_false] at hsup
    rcases hsup with h | h | h | h | h | h <;>
      subst h <;> simp [index_dataset, hext, index_csv, index_tsv, index_json,
        index_parquet]
  · simp only [List.mem_cons, List.not_mem_nil, or_false] at hsup
    rcases hsup with h | h | h | h | h | h <;>
      subst h <;> simp [extract_dataset_to_versions_dir, hext, export_csv,
        export_tsv, export_rest, export_parquet]
  · intro tbl
    simp [export_table, exclude_col, List.mem_filter]

/-- C4 witness: a concrete two-column csv round-trips through index and
export. -/
theorem tabular_index_export_round_trip_witness :
    extensionOf "annotations/train.csv" = some "csv" ∧
    csvTable.wf ∧
    export_table (index_table csvTable uuidGen) = csvTable :=
  ⟨rfl, by unfold DataTable.wf; decide,
    (tabular_index_export_round_trip "annotations/train.csv" csvTable uuidGen
      "csv" rfl (by decide) (by unfold DataTable.wf; decide) (by decide)).2.2.1⟩

/-- C5: under the §3 invariants (children sorted and unique by path, every
referenced hash present in the objects DB), `get_entry` — two binary
searches, first for the 2-hex prefix of `hash_path(P)` among the `Dir`'s
vnode children, then for the full path among the vnode's children — agrees
with the linear reference lookup: it returns the `File` entry exactly when
both searches succeed on a `File` child and `None` when either search
misses, and it never panics. -/
theorem get_entry_binary_search_resolution (rdr : DirEntryReader)
    (odb : ObjectDB) (pathHash : String → String) (path : String)
    (hdir : sortedByPath rdr.dirChildren)
    (hvns : ∀ q ∈ odb.vnodes, sortedByPath q.2)
    (hvp : ∀ c ∈ rdr.dirChildren, (lookupA odb.vnodes c.hashOf).isSome)
    (hfp : ∀ q ∈ odb.vnodes, ∀ x ∈ q.2,
      (match x with
       | TreeObjectChild.file _ h => (lookupA odb.files h).isSome
       | _ => true) = true) :
    new_reader_get_entry rdr odb pathHash path
      = .ok (spec_get_entry rdr odb pathHash path) := by
  unfold new_reader_get_entry spec_get_entry
  dsimp only
  rw [binary_search_eq_find TreeObjectChild.path
    (strTake (pathHash (joinPath rdr.dir path)) 2) rdr.dirChildren hdir]
  cases hf : rdr.dirChildren.find?
      (fun c => c.path == strTake (pathHash (joinPath rdr.dir path)) 2) with
  | none => rfl
  | some vc =>
    dsimp only
    have hvc : vc ∈ rdr.dirChildren := List.mem_of_find?_eq_some hf
    have hvsome := hvp vc hvc
    cases hl : lookupA odb.vnodes vc.hashOf with
    | none => rw [hl] at hvsome; simp at hvsome
    | some ch =>
      dsimp only
      have hmem : (vc.hashOf, ch) ∈ odb.vnodes := lookupA_mem _ _ _ hl
      have hsorted2 : sortedByPath ch := hvns _ hmem
      rw [binary_search_eq_find TreeObjectChild.path
        (joinPath rdr.dir path) ch hsorted2]
      cases hf2 : ch.find? (fun c => c.path == joinPath rdr.dir path) with
      | none => rfl
      | some child =>
        cases child with
        | file p h =>
          dsimp only
          have hcm : TreeObjectChild.file p h ∈ ch :=
            List.mem_of_find?_eq_some hf2
          have hfsome := hfp _ hmem _ hcm
          cases hlf : lookupA odb.files h with
          | none =>
            dsimp only at hfsome
            rw [hlf] at hfsome
            simp at hfsome
          | some fo => rfl
        | dir p h => rfl
        | vnode p h => rfl
        | schemaNode p h => rfl

/-- C5 witness: on a one-file tree, `get_entry` resolves `cat.jpg` in dir
`train` to the `File` entry with hash `fh1`. -/
theorem get_entry_binary_search_resolution_witness :
    sortedByPath treeReaderOneFile.dirChildren ∧
    new_reader_get_entry treeReaderOneFile objectsOneFile constPathHash "cat.jpg"
      = .ok (spec_get_entry treeReaderOneFile objectsOneFile constPathHash
          "cat.jpg") ∧
    spec_get_entry treeReaderOneFile objectsOneFile constPathHash "cat.jpg"
      = some ⟨"commit1", "train/cat.jpg", "fh1", 10, 3, 4⟩ :=
  ⟨by simp [sortedByPath, treeReaderOneFile],
    get_entry_binary_search_resolution treeReaderOneFile objectsOneFile
      constPathHash "cat.jpg" (by simp [sortedByPath, treeReaderOneFile])
      (by simp [sortedByPath, objectsOneFile]) (by decide) (by decide),
    by decide⟩

end Oxen
